import Mathlib

/-!
Shallow embedding of the product-hub catalog-management workflow
(components `ProductForm.tsx`, `ProductManager.tsx`, and the earlier
revision of `ProductManager` kept in `STORAGE_DEBUG.md`), together with
proofs about the product submission, validation, image acquisition and
deletion paths.

Conventions of the embedding:
  * JavaScript strings are Lean `String`s; `undefined`-able strings are
    `Option String`; JS truthiness of a `string | undefined` value is the
    predicate `jsTruthy` (empty string and `undefined` are falsy).
  * The result of JS `Number(x)` coercion is modelled as `Option ℚ`
    (`none` models `NaN`, i.e. non-numeric input).
  * Asynchronous effects are modelled by explicit outcome values; a
    rejected promise is a `Bool`/inductive flag threaded through the
    control flow exactly as the `try`/`catch` blocks of the source do.
-/

/-! ## Tags transform (Product Write Path)

`ProductManager.tsx` line 61 (and `STORAGE_DEBUG.md` line 106):
`tags: data.tags?.split(',').map(tag => tag.trim()).filter(tag => tag) || []`.
`data.tags` is `string | undefined`; when it is `undefined` the optional
chain yields `undefined` and `|| []` produces the empty array; when it is
a string (possibly empty), `split(',')` always yields a non-empty array,
which is truthy, so the `|| []` branch is not taken.

JS `String.prototype.split(',')` and `trim()` are embedded structurally
on the character list of the string (`"".split(',')` is `[""]`; a
trailing separator yields a trailing empty token, exactly as below). -/

def splitOnComma (cs : List Char) : List (List Char) :=
  match cs with
  | [] => [[]]
  | c :: rest =>
      match splitOnComma rest with
      | [] => if c = ',' then [[], []] else [[c]]
      | t :: ts => if c = ',' then [] :: t :: ts else (c :: t) :: ts

def trimChars (cs : List Char) : List Char :=
  ((cs.dropWhile Char.isWhitespace).reverse.dropWhile Char.isWhitespace).reverse

def trimString (s : String) : String :=
  ⟨trimChars s.data⟩

def tagsTransform (tags : Option String) : List String :=
  match tags with
  | none => []
  | some s => ((splitOnComma s.data).map (fun cs => trimString ⟨cs⟩)).filter (fun t => t ≠ "")

/-- Modelled from the spec (for the refinement comparison only): the
spec-side description of the tags derivation — "splitting the input on
commas, trimming each token, and discarding tokens that are empty after
trimming", with empty/absent input yielding the empty sequence. -/
def specTagsSplit (raw : Option String) : List String :=
  match raw with
  | none => []
  | some s =>
      ((splitOnComma s.data).filter (fun t => ¬ trimChars t = [])).map (fun cs => trimString ⟨cs⟩)

/-! ## Persisted record built by the Product Write Path

`ProductManager.tsx` lines 55-64: the document appended to the `products`
collection. Form data arrives already validated, so the field types below
are the parsed ones (`ProductFormValues` in `src/lib/types.ts`). -/

structure ProductFormValues where
  name : String
  shortDescription : String
  fullDescription : String
  regularPrice : ℚ
  salePrice : Option ℚ
  tags : Option String
  images : List String

structure ProductRecord where
  name : String
  shortDescription : String
  fullDescription : String
  regularPrice : ℚ
  salePrice : Option ℚ
  tags : List String
  imageUrls : List String
  createdAt : ℕ

def buildProductRecord (data : ProductFormValues) (now : ℕ) : ProductRecord :=
  { name := data.name
  , shortDescription := data.shortDescription
  , fullDescription := data.fullDescription
  , regularPrice := data.regularPrice
  , salePrice := data.salePrice
  , tags := tagsTransform data.tags
  , imageUrls := data.images
  , createdAt := now }

/-! ## Validation Schema

`ProductForm.tsx` lines 22-32, the zod object `productFormSchema`.
Each rule is embedded as one boolean check; `safeParse` collects one
issue per violated field (zod attaches issues to the field path).
`z.coerce.number()` applies `Number(input)`; its result is modelled as
`Option ℚ` with `none` for `NaN`.  `salePrice` is
`z.coerce.number().optional().nullable()`: `undefined` and `null` bypass
the numeric check.  `z.string().url()`'s well-formedness test is an
opaque library predicate, abstracted as a parameter `isURL`. -/

inductive SalePriceInput where
  | undef
  | null
  | num (coerced : Option ℚ)
deriving DecidableEq

structure RawProductForm where
  name : String
  shortDescription : String
  fullDescription : String
  regularPrice : Option ℚ
  salePrice : SalePriceInput
  tags : Option String
  images : List String

inductive FormField where
  | name
  | shortDescription
  | fullDescription
  | regularPrice
  | salePrice
  | tags
  | images
deriving DecidableEq

def allFormFields : List FormField :=
  [.name, .shortDescription, .fullDescription, .regularPrice, .salePrice, .tags, .images]

def MAX_IMAGES : ℕ := 3

def fieldOk (isURL : String → Bool) (f : RawProductForm) : FormField → Bool
  | .name => 3 ≤ f.name.length
  | .shortDescription => 10 ≤ f.shortDescription.length && f.shortDescription.length ≤ 120
  | .fullDescription => 10 ≤ f.fullDescription.length
  | .regularPrice =>
      match f.regularPrice with
      | some q => 0 < q
      | none => false
  | .salePrice =>
      match f.salePrice with
      | .undef => true
      | .null => true
      | .num o => o.isSome
  | .tags => true
  | .images => 1 ≤ f.images.length && f.images.length ≤ MAX_IMAGES && f.images.all isURL

def fieldViolations (isURL : String → Bool) (f : RawProductForm) : List FormField :=
  allFormFields.filter (fun fld => ! fieldOk isURL f fld)

def safeParseOk (isURL : String → Bool) (f : RawProductForm) : Bool :=
  fieldViolations isURL f |>.isEmpty

/-! ## Theorems: C1 and C2 -/

/-- C1: the record persisted by the Product Write Path has a `tags` field
equal to the comma-split, trimmed, empty-filtered transform of the raw
tags input (preserving order and duplicates, which the single filtered
`map` does by construction); empty or absent input yields the empty list,
never a null-like value.  The concrete example from the spec is included. -/
theorem buildProductRecord_tags_spec (data : ProductFormValues) (now : ℕ) :
    (buildProductRecord data now).tags = specTagsSplit data.tags ∧
    tagsTransform none = [] ∧
    tagsTransform (some "") = [] ∧
    tagsTransform (some "Summer, , Cotton,") = ["Summer", "Cotton"] := by
  refine ⟨?_, rfl, by decide, by decide⟩
  show tagsTransform data.tags = specTagsSplit data.tags
  cases data.tags with
  | none => rfl
  | some s =>
      rw [tagsTransform, specTagsSplit, List.filter_map]
      congr 1
      refine List.filter_congr (fun cs _ => ?_)
      simp only [Function.comp_apply, trimString, ne_eq, decide_not, String.ext_iff]

/-- C2: the Validation Schema accepts a candidate form record iff
`name` has length ≥ 3, `shortDescription` length is in [10,120],
`fullDescription` length ≥ 10, `regularPrice` coerces to a positive
number, `salePrice` is absent, null or coercible, `tags` is arbitrary,
and `images` holds 1 to 3 well-formed URLs; and a field is reported in
the violation list exactly when its own rule fails. -/
theorem productFormSchema_accepts_iff (isURL : String → Bool) (f : RawProductForm) :
    (safeParseOk isURL f = true ↔
      (3 ≤ f.name.length ∧
       10 ≤ f.shortDescription.length ∧ f.shortDescription.length ≤ 120 ∧
       10 ≤ f.fullDescription.length ∧
       (∃ q, f.regularPrice = some q ∧ 0 < q) ∧
       (f.salePrice = .undef ∨ f.salePrice = .null ∨ ∃ q, f.salePrice = .num (some q)) ∧
       1 ≤ f.images.length ∧ f.images.length ≤ MAX_IMAGES ∧
       (∀ u ∈ f.images, isURL u = true))) ∧
    (∀ fld, fld ∈ fieldViolations isURL f ↔ fieldOk isURL f fld = false) := by
  constructor
  · rw [safeParseOk, fieldViolations, List.isEmpty_iff, List.filter_eq_nil_iff]
    constructor
    · intro h
      have hname := h .name (by simp [allFormFields])
      have hshort := h .shortDescription (by simp [allFormFields])
      have hfull := h .fullDescription (by simp [allFormFields])
      have hreg := h .regularPrice (by simp [allFormFields])
      have hsale := h .salePrice (by simp [allFormFields])
      have himg := h .images (by simp [allFormFields])
      simp only [fieldOk, Bool.not_eq_true', Bool.not_eq_false] at hname hshort hfull hreg hsale himg
      refine ⟨by simpa using hname, ?_, ?_, by simpa using hfull, ?_, ?_, ?_, ?_, ?_⟩
      · have := (Bool.and_eq_true _ _).mp hshort |>.1
        simpa using this
      · have := (Bool.and_eq_true _ _).mp hshort |>.2
        simpa using this
      · cases hq : f.regularPrice with
        | none => rw [hq] at hreg; simp at hreg
        | some q =>
            rw [hq] at hreg
            exact ⟨q, rfl, by simpa using hreg⟩
      · cases hs : f.salePrice with
        | undef => exact Or.inl rfl
        | null => exact Or.inr (Or.inl rfl)
        | num o =>
            rw [hs] at hsale
            cases o with
            | none => simp at hsale
            | some q => exact Or.inr (Or.inr ⟨q, rfl⟩)
      · have := ((Bool.and_eq_true _ _).mp ((Bool.and_eq_true _ _).mp himg).1).1
        simpa using this
      · have := ((Bool.and_eq_true _ _).mp ((Bool.and_eq_true _ _).mp himg).1).2
        simpa using this
      · have := ((Bool.and_eq_true _ _).mp himg).2
        intro u hu
        exact (List.all_eq_true.mp this) u hu
    · rintro ⟨hname, hs1, hs2, hfull, ⟨q, hq, hqpos⟩, hsale, hi1, hi2, hiurl⟩ fld _
      cases fld with
      | name => simpa [fieldOk] using hname
      | shortDescription => simp [fieldOk, hs1, hs2]
      | fullDescription => simpa [fieldOk] using hfull
      | regularPrice => simp [fieldOk, hq, hqpos]
      | salePrice =>
          rcases hsale with h | h | ⟨q', h⟩ <;> simp [fieldOk, h]
      | tags => simp [fieldOk]
      | images =>
          simp only [fieldOk, Bool.not_eq_true', Bool.not_eq_false]
          refine (Bool.and_eq_true _ _).mpr ⟨(Bool.and_eq_true _ _).mpr ⟨by simpa using hi1, by simpa using hi2⟩, ?_⟩
          exact List.all_eq_true.mpr (fun u hu => hiurl u hu)
  · intro fld
    rw [fieldViolations, List.mem_filter]
    constructor
    · rintro ⟨_, h⟩
      simpa using h
    · intro h
      refine ⟨?_, by simpa using h⟩
      cases fld <;> simp [allFormFields]

/-! ## Product Delete Path (Variant A)

`STORAGE_DEBUG.md` lines 129-157 (`handleDeleteProduct` of the
direct-upload revision).  For each image URL the code awaits
`deleteObject(ref)` with a `.catch` that swallows only the
`storage/object-not-found` error code and rethrows anything else; a
rethrown error aborts the loop, skips the Firestore `deleteDoc`, and the
outer `catch` shows the failure toast.  When the loop completes,
`deleteDoc` runs; if it succeeds the success toast is shown, and if it
rejects the outer `catch` shows the failure toast.

The blob store's answer for each URL is a parameter `bd`; the document
store's answer is the flag `docDeleteOk`. -/

inductive BlobDelResult where
  | success
  | notFound
  | otherError
deriving DecidableEq

structure DeleteOutcome where
  attempted : List String
  docDeleted : Bool
  successToast : Bool
deriving DecidableEq

def runImageDeletes (bd : String → BlobDelResult) : List String → List String × Bool
  | [] => ([], true)
  | u :: rest =>
      match bd u with
      | .otherError => ([u], false)
      | _ =>
          let r := runImageDeletes bd rest
          (u :: r.1, r.2)

def handleDeleteProduct (bd : String → BlobDelResult) (docDeleteOk : Bool)
    (imageUrls : List String) : DeleteOutcome :=
  let r := runImageDeletes bd imageUrls
  if r.2 then
    { attempted := r.1, docDeleted := docDeleteOk, successToast := docDeleteOk }
  else
    { attempted := r.1, docDeleted := false, successToast := false }

/-! ## Product Write Path failure handling (submission flow)

`ProductForm.tsx` lines 72-87 (`internalSubmit`) composed with
`ProductManager.tsx` lines 41-84 (`handleAddProduct`).  `internalSubmit`
resets the form and the accumulated image URLs only when
`await onSubmit(data)` resolves; `handleAddProduct`, however, wraps the
`addDoc` call in its own `try`/`catch` that swallows the error (it only
shows a failure toast) and never rethrows, so the promise it returns
resolves normally whether or not the document append succeeded. -/

structure FormState where
  name : String
  shortDescription : String
  fullDescription : String
  regularPrice : ℚ
  salePrice : Option ℚ
  tags : String
  images : List String
  imageUrls : List String
deriving DecidableEq

/-- Default values of `useForm` (`ProductForm.tsx` lines 46-54) plus the
empty `imageUrls` component state: the state `form.reset()` together with
`setImageUrls([])` restores. -/
def defaultFormState : FormState :=
  { name := ""
  , shortDescription := ""
  , fullDescription := ""
  , regularPrice := 0
  , salePrice := none
  , tags := ""
  , images := []
  , imageUrls := [] }

structure AddProductOutcome where
  successToast : Bool
  failureToast : Bool
  threw : Bool
deriving DecidableEq

/-- Embedding of `handleAddProduct` (`ProductManager.tsx` lines 41-84)
restricted to its observable submission outcome: `writeOk` is whether the
`addDoc` append succeeds.  The `catch` block converts a failed append into
a failure toast and returns normally, so `threw` is `false` on both
branches. -/
def handleAddProduct (writeOk : Bool) : AddProductOutcome :=
  if writeOk then
    { successToast := true, failureToast := false, threw := false }
  else
    { successToast := false, failureToast := true, threw := false }

/-- Embedding of `internalSubmit` (`ProductForm.tsx` lines 72-87): the
form state after submission, paired with the outcome of the
`onSubmit` handler (`handleAddProduct`).  The `catch` branch keeps the
state; the fall-through after a resolved `await` resets it. -/
def internalSubmit (writeOk : Bool) (st : FormState) : FormState × AddProductOutcome :=
  let out := handleAddProduct writeOk
  if out.threw then (st, out) else (defaultFormState, out)

/-- Concrete filled-in form state used to exhibit the reset-on-failure
behaviour. -/
def sampleFilledState : FormState :=
  { name := "Classic Tee"
  , shortDescription := "A soft cotton tee for everyday wear."
  , fullDescription := "All cotton, pre-shrunk, machine washable."
  , regularPrice := 20
  , salePrice := some 15
  , tags := "Summer, Casual"
  , images := ["https://utfs.io/f/abc"]
  , imageUrls := ["https://utfs.io/f/abc"] }

/-! ## Theorems: C3, C4 and C5 -/

/-- C3: when every image URL's deletion reports not-found, every URL is
still attempted, the not-found answers are treated as success, the
document is deleted and the success toast is shown (given the document
deletion itself succeeds). -/
theorem deleteProduct_notFound_succeeds (bd : String → BlobDelResult)
    (imageUrls : List String)
    (h : ∀ u ∈ imageUrls, bd u = BlobDelResult.notFound) :
    handleDeleteProduct bd true imageUrls =
      { attempted := imageUrls, docDeleted := true, successToast := true } := by
  have hrun : runImageDeletes bd imageUrls = (imageUrls, true) := by
    induction imageUrls with
    | nil => rfl
    | cons u rest ih =>
        have hu := h u (List.mem_cons_self u rest)
        have hrest := ih (fun v hv => h v (List.mem_cons_of_mem u hv))
        simp [runImageDeletes, hu, hrest]
  simp [handleDeleteProduct, hrun]

/-- Witness for C3 at a concrete input: both URLs are already absent, the
document is removed and success is reported. -/
theorem deleteProduct_notFound_succeeds_witness :
    handleDeleteProduct (fun _ => BlobDelResult.notFound) true ["u1", "u2"] =
      { attempted := ["u1", "u2"], docDeleted := true, successToast := true } :=
  deleteProduct_notFound_succeeds (fun _ => BlobDelResult.notFound) ["u1", "u2"]
    (fun _ _ => rfl)

/-- C4: when the deletion of some image URL `u` fails with an error other
than not-found (and the URLs before it do not), the loop stops at `u`
(the later URLs are never attempted), the document is not deleted, and
failure is reported, whatever the document store would have answered. -/
theorem deleteProduct_aborts_on_other_failure (bd : String → BlobDelResult)
    (docDeleteOk : Bool) (pre post : List String) (u : String)
    (hpre : ∀ v ∈ pre, bd v ≠ BlobDelResult.otherError)
    (hu : bd u = BlobDelResult.otherError) :
    handleDeleteProduct bd docDeleteOk (pre ++ u :: post) =
      { attempted := pre ++ [u], docDeleted := false, successToast := false } := by
  have hrun : runImageDeletes bd (pre ++ u :: post) = (pre ++ [u], false) := by
    induction pre with
    | nil => simp [runImageDeletes, hu]
    | cons v rest ih =>
        have hv := hpre v (List.mem_cons_self v rest)
        have hrest := ih (fun w hw => hpre w (List.mem_cons_of_mem v hw))
        cases hbv : bd v with
        | otherError => exact absurd hbv hv
        | success => simp [runImageDeletes, hbv, hrest]
        | notFound => simp [runImageDeletes, hbv, hrest]
  simp [handleDeleteProduct, hrun]

/-- Witness for C4 at a concrete input: the second of three URLs fails
with a non-not-found error; only the first two are attempted, the
document survives, and failure is reported even though the document
store would have accepted the delete. -/
theorem deleteProduct_aborts_on_other_failure_witness :
    handleDeleteProduct
        (fun v => if v = "b" then BlobDelResult.otherError else BlobDelResult.notFound)
        true (["a"] ++ "b" :: ["c"]) =
      { attempted := ["a", "b"], docDeleted := false, successToast := false } :=
  deleteProduct_aborts_on_other_failure
    (fun v => if v = "b" then BlobDelResult.otherError else BlobDelResult.notFound)
    true ["a"] ["c"] "b" (by decide) (by decide)

/-- C5 (code bug evidence): on a failed document append the composed
submission flow still resets the form state and the accumulated image
URLs to the defaults — `handleAddProduct` swallows the `addDoc` error,
so `internalSubmit` resolves and falls through to `form.reset()` /
`setImageUrls([])` — while reporting the failure toast and no success
toast.  The sample state is genuinely non-default, so user input is
lost, contrary to the comments at `ProductForm.tsx` lines 80 and 85. -/
theorem internalSubmit_resets_on_write_failure :
    (internalSubmit false sampleFilledState).1 = defaultFormState ∧
    sampleFilledState ≠ defaultFormState ∧
    (internalSubmit false sampleFilledState).2.failureToast = true ∧
    (internalSubmit false sampleFilledState).2.successToast = false := by
  refine ⟨rfl, ?_, rfl, rfl⟩
  intro h
  have := congrArg FormState.name h
  simp [sampleFilledState, defaultFormState] at this

/-! ## Variant A upload progress

`STORAGE_DEBUG.md` lines 79-97: during the sequential upload loop the
`state_changed` handler computes
`progress = (snapshot.bytesTransferred / snapshot.totalBytes) * 100` and
`overallProgress = ((filesUploaded + (progress / 100)) / totalFiles) * 100`,
then emits `overallProgress`.  `filesUploaded` counts the files whose
terminal success handler has run; files are uploaded strictly one after
the other, so while file `i` (0-based) is in flight `filesUploaded = i`. -/

def fileProgress (bytesTransferred totalBytes : ℚ) : ℚ :=
  bytesTransferred / totalBytes * 100

def overallProgress (totalFiles filesUploaded : ℕ) (bytesTransferred totalBytes : ℚ) : ℚ :=
  (((filesUploaded : ℚ) + fileProgress bytesTransferred totalBytes / 100) / totalFiles) * 100

theorem overallProgress_eq (n i : ℕ) (b T : ℚ) :
    overallProgress n i b T = (((i : ℚ) + b / T) / n) * 100 := by
  unfold overallProgress fileProgress
  ring

/-- C6: with `n` files in the submission and file `i` (0-based) in
flight, every emitted aggregate progress value equals
`((completedFiles + currentFileFraction) / totalFiles) * 100`, lies in
`[0,100]`, is monotone in the bytes transferred within the file and
across later files (hence non-decreasing along the events of one
submission), and equals exactly `100` only at the final full-transfer
event of the last file. -/
theorem uploadProgress_spec (n i : ℕ) (b T : ℚ)
    (hn : 0 < n) (hi : i < n) (hT : 0 < T) (hb0 : 0 ≤ b) (hbT : b ≤ T) :
    overallProgress n i b T = (((i : ℚ) + b / T) / n) * 100 ∧
    (0 ≤ overallProgress n i b T ∧ overallProgress n i b T ≤ 100) ∧
    (∀ b', b ≤ b' → b' ≤ T → overallProgress n i b T ≤ overallProgress n i b' T) ∧
    (∀ i' b' T', i < i' → 0 < T' → 0 ≤ b' → b' ≤ T' →
        overallProgress n i b T ≤ overallProgress n i' b' T') ∧
    (overallProgress n i b T = 100 ↔ i = n - 1 ∧ b = T) := by
  have hn' : (0 : ℚ) < n := by exact_mod_cast hn
  have hfrac0 : 0 ≤ b / T := div_nonneg hb0 hT.le
  have hfrac1 : b / T ≤ 1 := (div_le_one hT).mpr hbT
  have hiq : (i : ℚ) + 1 ≤ (n : ℚ) := by exact_mod_cast Nat.succ_le_of_lt hi
  have hi0 : (0 : ℚ) ≤ (i : ℚ) := Nat.cast_nonneg i
  refine ⟨overallProgress_eq n i b T, ⟨?_, ?_⟩, ?_, ?_, ?_⟩
  · rw [overallProgress_eq]
    have : 0 ≤ ((i : ℚ) + b / T) / n := div_nonneg (by linarith) hn'.le
    linarith
  · rw [overallProgress_eq]
    have : ((i : ℚ) + b / T) / n ≤ 1 := (div_le_one hn').mpr (by linarith)
    linarith
  · intro b' hbb' hb'T
    rw [overallProgress_eq, overallProgress_eq]
    have : b / T ≤ b' / T := by gcongr
    have : ((i : ℚ) + b / T) / n ≤ ((i : ℚ) + b' / T) / n := by gcongr
    linarith
  · intro i' b' T' hii' hT' hb' hb'T'
    rw [overallProgress_eq, overallProgress_eq]
    have h1 : (i : ℚ) + 1 ≤ (i' : ℚ) := by exact_mod_cast Nat.succ_le_of_lt hii'
    have h2 : 0 ≤ b' / T' := div_nonneg hb' hT'.le
    have hkey : (i : ℚ) + b / T ≤ (i' : ℚ) + b' / T' := by linarith
    have : ((i : ℚ) + b / T) / n ≤ ((i' : ℚ) + b' / T') / n := by gcongr
    linarith
  · rw [overallProgress_eq]
    constructor
    · intro h
      have hx : ((i : ℚ) + b / T) / n = 1 := by linarith
      have hkey : (i : ℚ) + b / T = 1 * n := (div_eq_iff hn'.ne').mp hx
      rw [one_mul] at hkey
    -- from b / T ≤ 1 and i + 1 ≤ n, equality forces both extremes
      have hbT' : b / T = 1 := by linarith
      have hiq' : (i : ℚ) = (n : ℚ) - 1 := by linarith
      have hb : b = 1 * T := (div_eq_iff hT.ne').mp hbT'
      rw [one_mul] at hb
      refine ⟨?_, hb⟩
      have : ((n - 1 : ℕ) : ℚ) = (n : ℚ) - 1 := by
        have : 1 ≤ n := hn
        push_cast [this]
        ring
      have : (i : ℚ) = ((n - 1 : ℕ) : ℚ) := by rw [this, hiq']
      exact_mod_cast this
    · rintro ⟨rfl, rfl⟩
      have hc : ((n - 1 : ℕ) : ℚ) = (n : ℚ) - 1 := by
        have : 1 ≤ n := hn
        push_cast [this]
        ring
      rw [hc, div_self hT.ne']
      have h1 : (n : ℚ) - 1 + 1 = n := by ring
      rw [h1, div_self hn'.ne', one_mul]

/-- Witness for C6 at concrete inputs: with two files of five bytes each,
the final event of the second file reports exactly 100, and the halfway
event of the first file reports a value in `[0,100]`. -/
theorem uploadProgress_spec_witness :
    overallProgress 2 1 5 5 = 100 ∧
    0 ≤ overallProgress 2 0 3 10 ∧ overallProgress 2 0 3 10 ≤ 100 :=
  ⟨(uploadProgress_spec 2 1 5 5 (by norm_num) (by norm_num) (by norm_num) (by norm_num)
      (by norm_num)).2.2.2.2.mpr ⟨rfl, rfl⟩,
   (uploadProgress_spec 2 0 3 10 (by norm_num) (by norm_num) (by norm_num) (by norm_num)
      (by norm_num)).2.1.1,
   (uploadProgress_spec 2 0 3 10 (by norm_num) (by norm_num) (by norm_num) (by norm_num)
      (by norm_num)).2.1.2⟩

/-! ## Variant B image acquisition (UploadThing dropzone)

`ProductForm.tsx` lines 196-236.  The dropzone is rendered only while
`imageUrls.length < MAX_IMAGES` (line 196); its completion callback
(lines 199-219) maps every descriptor of the batch to
`let url = file.url; if (!url && file.key) url = "https://utfs.io/f/" + file.key`,
drops falsy results with `.filter(Boolean)`, and appends the survivors to
the accumulated list with `setImageUrls(prev => [...prev, ...newUrls])`.
`removeImage` (lines 67-70) drops the entry at one index.

JS truthiness of a `string | undefined` value: `undefined` and the empty
string are falsy. -/

structure UploadedFileInfo where
  url : Option String
  key : Option String
deriving DecidableEq

def jsTruthy : Option String → Bool
  | none => false
  | some s => s != ""

def utfsBase : String := "https://utfs.io/f/"

def extractUrl (f : UploadedFileInfo) : Option String :=
  if jsTruthy f.url then f.url
  else
    match f.key with
    | some k => if k = "" then f.url else some (utfsBase ++ k)
    | none => f.url

def completedUrls (res : List UploadedFileInfo) : List String :=
  (res.map extractUrl).filterMap (fun o => if jsTruthy o then o else none)

def onClientUploadComplete (res : List UploadedFileInfo) (prev : List String) : List String :=
  prev ++ completedUrls res

def removeImage (index : ℕ) (urls : List String) : List String :=
  urls.eraseIdx index

def dropzoneRendered (urls : List String) : Bool :=
  urls.length < MAX_IMAGES

/-- One user-visible mutation of the accumulated image-URL list: either a
completion batch arrives from the widget, or the user removes one image.
A completion can only stem from an upload begun while the dropzone was
rendered; the conservative short-latency model below applies a completion
only when the dropzone is currently rendered — the claimed bound fails
even under this most favourable gating. -/
inductive FormEvent where
  | complete (res : List UploadedFileInfo)
  | remove (index : ℕ)

def stepImageUrls (urls : List String) : FormEvent → List String
  | .complete res => if dropzoneRendered urls then onClientUploadComplete res urls else urls
  | .remove i => removeImage i urls

def runFormEvents (events : List FormEvent) : List String :=
  events.foldl stepImageUrls []

def batchBounded : FormEvent → Bool
  | .complete res => (completedUrls res).length ≤ 1
  | .remove _ => true

/-- Event sequence for the C7 counterexample: two completion batches of
two files each.  Both arrive while the dropzone is rendered. -/
def overfullEvents : List FormEvent :=
  [FormEvent.complete
      [{ url := some "https://a.example/1", key := none },
       { url := some "https://a.example/2", key := none }],
   FormEvent.complete
      [{ url := some "https://a.example/3", key := none },
       { url := some "https://a.example/4", key := none }]]

/-! ## Variant A storage paths

`STORAGE_DEBUG.md` lines 74-77: the upload loop body runs
`const productId = doc(collection(db, 'products')).id` — a fresh
identifier drawn on every iteration — and stores the current file at
`products/<productId>/<file.name>`.  The generator is modelled as the
stream `idGen : ℕ → String` of identifiers it hands out in order; the
counter argument of `uploadPathsFrom` counts how many identifiers have
been drawn before the current iteration. -/

structure FileInput where
  name : String
deriving DecidableEq

def uploadPathsFrom (idGen : ℕ → String) (k : ℕ) : List FileInput → List String
  | [] => []
  | f :: fs => ("products/" ++ idGen k ++ "/" ++ f.name) :: uploadPathsFrom idGen (k + 1) fs

def uploadPaths (idGen : ℕ → String) (files : List FileInput) : List String :=
  uploadPathsFrom idGen 0 files

/-- Modelled from the spec (for the comparison only): the storage paths
the submission would produce if the per-product identifier were drawn
once and reused for every file, i.e. every file stored under the prefix
of the first drawn identifier. -/
def singleIdentifierPaths (idGen : ℕ → String) (files : List FileInput) : List String :=
  files.map (fun f => "products/" ++ idGen 0 ++ "/" ++ f.name)

theorem length_eraseIdx_le (l : List String) (i : ℕ) :
    (l.eraseIdx i).length ≤ l.length := by
  induction l generalizing i with
  | nil => simp [List.eraseIdx]
  | cons a as ih =>
      cases i with
      | zero => simp [List.eraseIdx]
      | succ j =>
          simp only [List.eraseIdx, List.length_cons]
          exact Nat.succ_le_succ (ih j)

theorem stepImageUrls_bound (urls : List String) (e : FormEvent)
    (hb : batchBounded e = true) (h : urls.length ≤ MAX_IMAGES) :
    (stepImageUrls urls e).length ≤ MAX_IMAGES := by
  cases e with
  | complete res =>
      simp only [batchBounded, decide_eq_true_eq] at hb
      by_cases hr : dropzoneRendered urls = true
      · have hlt : urls.length < MAX_IMAGES := by
          simpa [dropzoneRendered] using hr
        simp only [stepImageUrls, hr, if_true, onClientUploadComplete, List.length_append]
        omega
      · simp only [stepImageUrls, hr, if_false]
        simpa using h
  | remove i =>
      simp only [stepImageUrls, removeImage]
      exact le_trans (length_eraseIdx_le urls i) h

theorem foldl_stepImageUrls_bound (events : List FormEvent)
    (hb : ∀ e ∈ events, batchBounded e = true) :
    ∀ urls, urls.length ≤ MAX_IMAGES →
      (events.foldl stepImageUrls urls).length ≤ MAX_IMAGES := by
  induction events with
  | nil => intro urls h; simpa using h
  | cons e es ih =>
      intro urls h
      have he := hb e (List.mem_cons_self e es)
      have hes := fun e' h' => hb e' (List.mem_cons_of_mem e h')
      exact ih hes (stepImageUrls urls e) (stepImageUrls_bound urls e he h)

/-! ## Theorems: C7, C8, C9, C10 -/

/-- C7 counterexample: after two completion batches of two URLs each —
both arriving while the dropzone is still rendered — the accumulated
image-URL list holds 4 elements, exceeding the claimed bound of 3.  The
completion callback appends the whole batch without truncation. -/
theorem imageUrls_bound_counterexample :
    (runFormEvents overfullEvents).length = 4 ∧
    ¬ (runFormEvents overfullEvents).length ≤ 3 := by decide

/-- C7 amended: the upload surface is rendered exactly while the list
holds fewer than 3 URLs, and provided every completion batch contributes
at most one URL, the accumulated list never exceeds 3 elements after any
sequence of completions and removals; a batch contributing several URLs
can push the list past 3. -/
theorem imageUrls_bound_amended (events : List FormEvent)
    (hb : ∀ e ∈ events, batchBounded e = true) :
    (runFormEvents events).length ≤ MAX_IMAGES ∧
    (∀ urls : List String, dropzoneRendered urls = true ↔ urls.length < MAX_IMAGES) := by
  refine ⟨?_, ?_⟩
  · exact foldl_stepImageUrls_bound events hb [] (by simp [MAX_IMAGES])
  · intro urls
    simp [dropzoneRendered]

/-- Witness for C7 amended: three single-URL completions and one removal
leave at most 3 accumulated URLs. -/
theorem imageUrls_bound_amended_witness :
    (runFormEvents
      [FormEvent.complete [{ url := some "https://a.example/1", key := none }],
       FormEvent.complete [{ url := some "https://a.example/2", key := none }],
       FormEvent.remove 0,
       FormEvent.complete [{ url := some "https://a.example/3", key := none }]]).length ≤
      MAX_IMAGES :=
  (imageUrls_bound_amended
    [FormEvent.complete [{ url := some "https://a.example/1", key := none }],
     FormEvent.complete [{ url := some "https://a.example/2", key := none }],
     FormEvent.remove 0,
     FormEvent.complete [{ url := some "https://a.example/3", key := none }]]
    (by decide)).1

/-- C8 counterexample: a descriptor whose `url` field is present but the
empty string, with a key present, is not mapped to its explicit `url`
value — `!url` is true for the empty string, so the code synthesizes the
URL from the key instead. -/
theorem extractUrl_prefers_url_counterexample :
    extractUrl { url := some "", key := some "k" } = some "https://utfs.io/f/k" ∧
    extractUrl { url := some "", key := some "k" } ≠ some "" := by decide

/-- C8 amended: a completed-file descriptor is mapped to a URL by
preferring its `url` field whenever that field holds a non-empty string;
when `url` is absent or empty and a non-empty `key` is present, the URL
is synthesized as the fixed public base path followed by the key
(`https://utfs.io/f/` ++ key). -/
theorem extractUrl_amended (f : UploadedFileInfo) :
    (∀ u, f.url = some u → u ≠ "" → extractUrl f = some u) ∧
    ((f.url = none ∨ f.url = some "") →
      ∀ k, f.key = some k → k ≠ "" → extractUrl f = some (utfsBase ++ k)) := by
  constructor
  · intro u hu hne
    simp [extractUrl, jsTruthy, hu, hne]
  · rintro (h | h) k hk hkne <;> simp [extractUrl, jsTruthy, h, hk, hkne]

/-- Witness for C8 amended: a non-empty explicit URL wins over the key,
and an absent URL with a key yields the synthesized URL. -/
theorem extractUrl_amended_witness :
    extractUrl { url := some "https://x.example/p", key := some "k1" } =
        some "https://x.example/p" ∧
    extractUrl { url := none, key := some "k2" } = some (utfsBase ++ "k2") :=
  ⟨(extractUrl_amended { url := some "https://x.example/p", key := some "k1" }).1
      "https://x.example/p" rfl (by decide),
   (extractUrl_amended { url := none, key := some "k2" }).2 (Or.inl rfl) "k2" rfl (by decide)⟩

/-- C10: a completed-file descriptor carrying neither a `url` nor a `key`
is silently discarded — it contributes nothing to the accumulated list —
so a batch made only of such descriptors leaves the list unchanged, and
every accumulated entry is a non-empty (defined) URL string. -/
theorem emptyDescriptor_discarded :
    extractUrl { url := none, key := none } = none ∧
    (∀ res prev, (∀ f ∈ res, f.url = none ∧ f.key = none) →
        onClientUploadComplete res prev = prev) ∧
    (∀ res u, u ∈ completedUrls res → u ≠ "") := by
  refine ⟨rfl, ?_, ?_⟩
  · intro res prev h
    suffices hc : completedUrls res = [] by
      simp [onClientUploadComplete, hc]
    induction res with
    | nil => rfl
    | cons f fs ih =>
        have hf := h f (List.mem_cons_self f fs)
        have hfs := ih (fun g hg => h g (List.mem_cons_of_mem f hg))
        simp only [completedUrls, List.map_cons, List.filterMap_cons] at hfs ⊢
        rw [extractUrl, hf.1, hf.2]
        simpa [jsTruthy] using hfs
  · intro res u hu
    obtain ⟨o, _, hmap⟩ := List.mem_filterMap.mp hu
    by_cases hto : jsTruthy o = true
    · rw [if_pos hto] at hmap
      rw [hmap] at hto
      simpa [jsTruthy] using hto
    · rw [if_neg hto] at hmap
      exact absurd hmap (by simp)

/-- Witness for C10: a batch of one url-less key-less descriptor leaves a
concrete accumulated list unchanged. -/
theorem emptyDescriptor_discarded_witness :
    onClientUploadComplete [{ url := none, key := none }] ["https://a.example/1"] =
      ["https://a.example/1"] :=
  emptyDescriptor_discarded.2.1 [{ url := none, key := none }] ["https://a.example/1"]
    (by decide)

/-- C9 counterexample: with a generator whose first two identifiers
differ (`idA`, `idB` — fresh document ids are distinct), the two files of
one submission are stored under two different `products/<id>/` prefixes,
not under the single shared prefix the claim requires. -/
theorem uploadPaths_fresh_id_counterexample :
    uploadPaths (fun j => if j = 0 then "idA" else "idB") [⟨"a.png"⟩, ⟨"b.png"⟩] =
      ["products/idA/a.png", "products/idB/b.png"] ∧
    uploadPaths (fun j => if j = 0 then "idA" else "idB") [⟨"a.png"⟩, ⟨"b.png"⟩] ≠
      singleIdentifierPaths (fun j => if j = 0 then "idA" else "idB")
        [⟨"a.png"⟩, ⟨"b.png"⟩] := by decide

theorem uploadPathsFrom_getElem (idGen : ℕ → String) (k : ℕ) (files : List FileInput)
    (j : ℕ) (f : FileInput) (h : files[j]? = some f) :
    (uploadPathsFrom idGen k files)[j]? =
      some ("products/" ++ idGen (k + j) ++ "/" ++ f.name) := by
  induction files generalizing k j with
  | nil => simp at h
  | cons g gs ih =>
      cases j with
      | zero =>
          simp only [List.getElem?_cons_zero, Option.some.injEq] at h
          subst h
          simp [uploadPathsFrom]
      | succ j' =>
          simp only [List.getElem?_cons_succ] at h
          have := ih (k + 1) j' h
          simpa [uploadPathsFrom, Nat.add_assoc, Nat.add_comm 1 j'] using this

/-- C9 amended: the per-product identifier is generated afresh for every
file of the submission — the j-th file is stored at
`products/<j-th generated identifier>/<its name>` — so files of one
submission share a common prefix only if the generator repeats itself. -/
theorem uploadPaths_per_file_identifier (idGen : ℕ → String) (files : List FileInput)
    (j : ℕ) (f : FileInput) (h : files[j]? = some f) :
    (uploadPaths idGen files)[j]? = some ("products/" ++ idGen j ++ "/" ++ f.name) := by
  have := uploadPathsFrom_getElem idGen 0 files j f h
  simpa using this

/-- Witness for C9 amended: the single file of a one-file submission is
stored under the first generated identifier. -/
theorem uploadPaths_per_file_identifier_witness :
    (uploadPaths (fun j => if j = 0 then "pidA" else "pidB") [⟨"x.png"⟩])[0]? =
      some "products/pidA/x.png" := by
  rw [uploadPaths_per_file_identifier (fun j => if j = 0 then "pidA" else "pidB")
    [⟨"x.png"⟩] 0 ⟨"x.png"⟩ rfl]
  decide
